import Mathlib

/-!
Verification of the constrained text-generation engine of the
serverless-social-bot repository (src/bot.js): the Normalizer
(cleanText and its helpers), the ChainBuilder (MarkovChain.addData in
both its synchronous and asynchronous variants) and the Generator
(MarkovChain.generate and MarkovChain._generateOnce).

The JavaScript source is embedded shallowly:
- JS strings are Lean String (a structure wrapping List Char);
  lengths are counted in characters;
- JS regular-expression global replace is embedded as a left-to-right
  scanner: at each position a matcher either recognises a match
  starting there (returning the replacement and the rest of the input
  after the match) or the character is copied and the scan advances by
  one, exactly as the regex engine does for the patterns used here;
- the ambient randomness (Math.random) is an oracle passed as an
  explicit argument: an index for each random pick and a reordering
  function for each shuffle;
- thrown JS errors become Except.error carrying the message string;
  absent values (null/undefined) become Option / a JSVal code.
-/

namespace SocialBot

/-- JavaScript values as far as the bot inspects them: cleanText and
addData only distinguish strings from every other value. -/
inductive JSVal where
  | jsNull
  | jsUndefined
  | jsBool (b : Bool)
  | jsNum (n : Int)
  | jsStr (s : String)
deriving DecidableEq

/-- Whitespace class used by the regexes (\s) and by String.trim and
String.split in the source: space, tab, line feed, carriage return,
vertical tab, form feed. -/
def isJsWs (c : Char) : Bool :=
  c = ' ' || c = '\t' || c = '\n' || c = '\r' || c = Char.ofNat 11 || c = Char.ofNat 12

/-- Embedding of JS String.prototype.trim on character lists. -/
def trimChars (l : List Char) : List Char :=
  ((l.dropWhile isJsWs).reverse.dropWhile isJsWs).reverse

/-- Embedding of JS String.prototype.trim. -/
def trimStr (s : String) : String :=
  ⟨trimChars s.data⟩

/-- Scanner for JS text.split(/\s+/): the first argument is some acc
while a piece is being accumulated (in reverse) and none while inside
a separator run.  A leading separator yields a leading empty piece and
a trailing separator a trailing empty piece, as in JS. -/
def splitWsAux : Option (List Char) → List Char → List String
  | some acc, [] => [⟨acc.reverse⟩]
  | none, [] => [""]
  | some acc, c :: cs =>
    if isJsWs c then (⟨acc.reverse⟩ : String) :: splitWsAux none cs
    else splitWsAux (some (c :: acc)) cs
  | none, c :: cs =>
    if isJsWs c then splitWsAux none cs
    else splitWsAux (some [c]) cs

/-- Embedding of JS text.split(/\s+/). -/
def jsSplitWs (s : String) : List String :=
  splitWsAux (some []) s.data

/-- Embedding of JS array.join(" ") on a list of words. -/
def joinSpace : List String → String
  | [] => ""
  | [w] => w
  | w :: ws => w ++ " " ++ joinSpace ws

/-- Embedding of JS array.slice(-k) as used with k = stateSize - 1 (or
stateSize).  In JS, -(0) is 0, so slice(-0) returns the whole array;
for k larger than the length the whole array is returned as well. -/
def jsSliceNeg (l : List α) (k : Nat) : List α :=
  if k = 0 then l else l.drop (l.length - k)

/-- Generic left-to-right global regex replace.  The matcher tm
receives the current suffix; some (r, rest) means a match starts at
the head of the suffix, is replaced by r, and scanning resumes at
rest.  On none the head character is copied and the scan advances one
position.  Every matcher below consumes at least one character on a
match, so fuel equal to the input length never runs out; the fuel-out
branch returns the rest verbatim. -/
def scanReplace (tm : List Char → Option (List Char × List Char)) :
    Nat → List Char → List Char
  | _, [] => []
  | 0, l => l
  | f + 1, c :: cs =>
    match tm (c :: cs) with
    | some (r, rest) => r ++ scanReplace tm f rest
    | none => c :: scanReplace tm f cs

/-- Run a scanner over a whole string. -/
def runScan (tm : List Char → Option (List Char × List Char)) (s : String) : String :=
  ⟨scanReplace tm s.data.length s.data⟩

/-- Matcher for the replace(/\s+/g, " ") steps: a maximal whitespace
run collapses to a single space. -/
def wsRunTm (l : List Char) : Option (List Char × List Char) :=
  match l with
  | c :: cs => if isJsWs c then some ([' '], cs.dropWhile isJsWs) else none
  | [] => none

/-- Embedding of text.replace(/\s+/g, " "). -/
def collapseWs (s : String) : String :=
  runScan wsRunTm s

/-- Character class of replace(/[\u0000-\u001F\u007F-\u009F]/g, ""):
C0 and C1 control characters plus DEL. -/
def isControlChar (c : Char) : Bool :=
  c.toNat ≤ 0x1F || (0x7F ≤ c.toNat && c.toNat ≤ 0x9F)

/-- Embedding of the control-character removal step (a single-character
class replaced by the empty string is a filter). -/
def removeControl (s : String) : String :=
  ⟨s.data.filter (fun c => !isControlChar c)⟩

/-- Case-insensitive character comparison, for the regexes carrying the
i flag. -/
def lcEq (c d : Char) : Bool :=
  c.toLower = d.toLower

/-- Recognise one of the block-tag names p | div | br | h[1-6] | li
(case-insensitively) at the head of the list, returning the rest.  The
alternatives start with distinct letters, so regex alternation order
does not matter here. -/
def matchTagName (l : List Char) : Option (List Char) :=
  match l with
  | [] => none
  | c :: rest =>
    if lcEq c 'p' then some rest
    else if lcEq c 'b' then
      match rest with
      | d :: rest2 => if lcEq d 'r' then some rest2 else none
      | [] => none
    else if lcEq c 'd' then
      match rest with
      | d :: e :: rest2 => if lcEq d 'i' && lcEq e 'v' then some rest2 else none
      | _ => none
    else if lcEq c 'l' then
      match rest with
      | d :: rest2 => if lcEq d 'i' then some rest2 else none
      | [] => none
    else if lcEq c 'h' then
      match rest with
      | d :: rest2 => if '1' ≤ d && d ≤ '6' then some rest2 else none
      | [] => none
    else none

/-- Matcher for replace(/<\/(p|div|br|h[1-6]|li)>/gi, " "). -/
def closeTagTm (l : List Char) : Option (List Char × List Char) :=
  match l with
  | '<' :: '/' :: rest =>
    match matchTagName rest with
    | some ('>' :: rest2) => some ([' '], rest2)
    | _ => none
  | _ => none

/-- Matcher for replace(/<(p|div|br|h[1-6]|li)[^>]*>/gi, " "): tag name
then any run of non-'>' characters then '>'. -/
def openTagTm (l : List Char) : Option (List Char × List Char) :=
  match l with
  | '<' :: rest =>
    match matchTagName rest with
    | some rest2 =>
      match rest2.dropWhile (fun c => c ≠ '>') with
      | '>' :: rest3 => some ([' '], rest3)
      | _ => none
    | none => none
  | _ => none

/-- Matcher for replace(/<[^>]+>/g, ""): a '<', at least one non-'>'
character, then the next '>'. -/
def anyTagTm (l : List Char) : Option (List Char × List Char) :=
  match l with
  | '<' :: rest =>
    if (rest.takeWhile (fun c => c ≠ '>')).isEmpty then none
    else
      match rest.dropWhile (fun c => c ≠ '>') with
      | '>' :: rest2 => some ([], rest2)
      | _ => none
  | _ => none

/-- Embedding of stripHtmlTags: block-tag boundaries become spaces,
remaining tags are removed, whitespace is collapsed and trimmed. -/
def stripHtmlTags (s : String) : String :=
  trimStr (collapseWs (runScan anyTagTm (runScan openTagTm (runScan closeTagTm s))))

/-- The fixed entity table of decodeHtmlEntities (src/bot.js, second
version, lines 635-665). -/
def htmlEntities : List (String × String) :=
  [("&amp;", "&"), ("&lt;", "<"), ("&gt;", ">"), ("&quot;", "\""),
   ("&#39;", "\x27"), ("&nbsp;", " "), ("&ndash;", "-"), ("&mdash;", "--"),
   ("&hellip;", "..."), ("&trade;", "TM"), ("&copy;", "(c)"), ("&reg;", "(R)"),
   ("&deg;", "degrees"), ("&plusmn;", "+/-"), ("&para;", "(P)"), ("&sect;", "(S)"),
   ("&ldquo;", "\""), ("&rdquo;", "\""), ("&lsquo;", "\x27"), ("&rsquo;", "\x27"),
   ("&laquo;", "<<"), ("&raquo;", ">>"), ("&times;", "x"), ("&divide;", "/"),
   ("&cent;", "c"), ("&pound;", "GBP"), ("&euro;", "EUR"), ("&bull;", "*")]

/-- Lookup in the entity table; unknown entities map to the empty
string, embedding entities[entity] applied with a fallback of "". -/
def entityLookup (k : String) : String :=
  ((htmlEntities.find? (fun p => p.1 = k)).map (fun p => p.2)).getD ""

/-- Scanner for replace(/&[^;]+;/g, e => entities[e] or "").  In mode
some acc the scan is inside a candidate entity started by an ampersand,
with the characters read so far (in reverse) in acc; the candidate ends
at the first semicolon, however far away, and any character other than
a semicolon (spaces and further ampersands included) is accumulated,
exactly like the character class [^;]+. -/
def decodeEntAux : Option (List Char) → List Char → List Char
  | none, [] => []
  | some acc, [] => '&' :: acc.reverse
  | none, c :: cs =>
    if c = '&' then decodeEntAux (some []) cs
    else c :: decodeEntAux none cs
  | some acc, c :: cs =>
    if c = ';' then
      match acc with
      | [] => '&' :: ';' :: decodeEntAux none cs
      | _ => (entityLookup ⟨'&' :: (acc.reverse ++ [';'])⟩).data ++ decodeEntAux none cs
    else decodeEntAux (some (c :: acc)) cs

/-- Embedding of decodeHtmlEntities (second version: unknown entities
are dropped). -/
def decodeHtmlEntities (s : String) : String :=
  ⟨decodeEntAux none s.data⟩

/-- Character class [\w.-] of the mention regex. -/
def isMentionChar (c : Char) : Bool :=
  c.isAlphanum || c = '_' || c = '.' || c = '-'

/-- Matcher for the URL regex /(https?:\/\/[^\s]+)|(www\.[^\s]+)/g: a
scheme or www. prefix followed by at least one non-whitespace
character; the match extends to the end of the non-whitespace run. -/
def urlTm (l : List Char) : Option (List Char × List Char) :=
  let afterScheme : List Char → Option (List Char × List Char) := fun rest =>
    let run := rest.takeWhile (fun c => !isJsWs c)
    if run.isEmpty then none else some ([], rest.drop run.length)
  if ("https://".data).isPrefixOf l then afterScheme (l.drop 8)
  else if ("http://".data).isPrefixOf l then afterScheme (l.drop 7)
  else if ("www.".data).isPrefixOf l then afterScheme (l.drop 4)
  else none

/-- Embedding of the URL-removal step. -/
def removeUrls (s : String) : String :=
  runScan urlTm s

/-- Matcher for the mention regex /@[\w.-]+/g. -/
def mentionTm (l : List Char) : Option (List Char × List Char) :=
  match l with
  | '@' :: rest =>
    let run := rest.takeWhile isMentionChar
    if run.isEmpty then none else some ([], rest.drop run.length)
  | _ => none

/-- Embedding of the mention-removal step. -/
def removeMentions (s : String) : String :=
  runScan mentionTm s

/-- Embedding of replace(/^RT\s+/i, ""): anchored, non-global; the RT
marker and the following whitespace run are dropped. -/
def removeRT (s : String) : String :=
  match s.data with
  | r :: t :: rest =>
    if lcEq r 'R' && lcEq t 'T' then
      let run := rest.takeWhile isJsWs
      if run.isEmpty then s else ⟨rest.drop run.length⟩
    else s
  | _ => s

/-- Word characters for the \b boundaries of the excluded-words regex. -/
def isWordChar (c : Char) : Bool :=
  c.isAlphanum || c = '_'

/-- Case-insensitive literal match of one alternative as a prefix,
returning the rest. -/
def matchWordCI : List Char → List Char → Option (List Char)
  | [], rest => some rest
  | _ :: _, [] => none
  | w :: ws, c :: cs => if lcEq c w then matchWordCI ws cs else none

/-- Try the excluded-word alternatives in order at this position; on a
literal match the trailing \b is checked, and on boundary failure the
next alternative is tried, as regex alternation backtracks.  Returns
the word-character status of the last matched character together with
the rest of the input. -/
def tryExcluded (words : List String) (l : List Char) : Option (Bool × List Char) :=
  match words with
  | [] => none
  | w :: ws =>
    match matchWordCI w.data l with
    | some rest =>
      let lastIsWord := match w.data.reverse with
        | d :: _ => isWordChar d
        | [] => false
      let nextIsWord := match rest with
        | d :: _ => isWordChar d
        | [] => false
      if lastIsWord ≠ nextIsWord then some (lastIsWord, rest)
      else tryExcluded ws l
    | none => tryExcluded ws l

/-- Scanner for the excluded-words regex \b(w1|w2|...)\b applied
globally and case-insensitively.  The Bool argument records whether the
previous character was a word character, so the leading \b is the
condition that it differ from the current character in wordness. -/
def excludedScan (words : List String) : Bool → Nat → List Char → List Char
  | _, _, [] => []
  | _, 0, l => l
  | prevW, f + 1, c :: cs =>
    if prevW = isWordChar c then c :: excludedScan words (isWordChar c) f cs
    else
      match tryExcluded words (c :: cs) with
      | some (lastW, rest) => excludedScan words lastW f rest
      | none => c :: excludedScan words (isWordChar c) f cs

/-- Embedding of the excluded-words removal step. -/
def removeExcluded (words : List String) (s : String) : String :=
  ⟨excludedScan words false s.data.length s.data⟩

/-- Embedding of cleanText (src/bot.js lines 804-845; the copy at lines
151-193 is identical).  The ambient CONFIG.excludedWords is passed as
an explicit argument.  The function is total: it never throws, and any
non-string value yields the empty string. -/
def cleanText (excludedWords : List String) (v : JSVal) : String :=
  match v with
  | .jsStr s =>
    if s = "" then ""
    else
      let t1 := stripHtmlTags s
      let t2 := decodeHtmlEntities t1
      let t3 := trimStr (collapseWs (removeControl t2))
      let t4 := trimStr (collapseWs (removeRT (removeMentions (removeUrls t3))))
      let t5 := if excludedWords.isEmpty then t4
                else trimStr (collapseWs (removeExcluded excludedWords t4))
      trimStr (collapseWs (removeControl t5))
  | _ => ""

/-- The state of a MarkovChain instance: the transition Map (an
association list with unique keys, preserving insertion order) and the
startStates array. -/
structure MarkovModel where
  chain : List (String × List String)
  startStates : List String
deriving DecidableEq

/-- Embedding of this.chain.get(state): first (and only) entry with the
given key. -/
def lookupChain : List (String × List String) → String → Option (List String)
  | [], _ => none
  | p :: ps, k => if p.1 = k then some p.2 else lookupChain ps k

/-- Embedding of: if (!this.chain.has(state)) this.chain.set(state, []). -/
def chainEnsure (chain : List (String × List String)) (state : String) :
    List (String × List String) :=
  if (lookupChain chain state).isSome then chain else chain ++ [(state, [])]

/-- Embedding of this.chain.get(state).push(word). -/
def chainPushWord (chain : List (String × List String)) (state : String) (w : String) :
    List (String × List String) :=
  chain.map (fun p => if p.1 = state then (p.1, p.2 ++ [w]) else p)

/-- One iteration of the addData inner loop for a state: create the
entry if absent, then push the next word when it is present and truthy
(the empty string is falsy in JS, and an index past the end yields
undefined). -/
def chainAddTransition (chain : List (String × List String)) (state : String)
    (next : Option String) : List (String × List String) :=
  let c := chainEnsure chain state
  match next with
  | some w => if w = "" then c else chainPushWord c state w
  | none => c

/-- The inner loop of addData over i = 0 .. words.length - stateSize:
state = words.slice(i, i + stateSize).join(" "), nextWord =
words[i + stateSize]. -/
def addWordsToChain (ss : Nat) (words : List String)
    (chain : List (String × List String)) : List (String × List String) :=
  (List.range (words.length - ss + 1)).foldl
    (fun ch i => chainAddTransition ch (joinSpace ((words.drop i).take ss))
      (words.get? (i + ss)))
    chain

/-- One item of the synchronous addData (src/bot.js lines 204-226, also
lines 1391-1413): non-strings and blank strings are skipped, items with
fewer than stateSize + 1 tokens are skipped, otherwise the first
stateSize tokens are registered as a start state and the transitions
are accumulated. -/
def addDataV1Item (ss : Nat) (m : MarkovModel) (v : JSVal) : MarkovModel :=
  match v with
  | .jsStr s =>
    if trimStr s = "" then m
    else
      let words := jsSplitWs (trimStr s)
      if words.length < ss + 1 then m
      else
        { chain := addWordsToChain ss words m.chain,
          startStates := m.startStates ++ [joinSpace (words.take ss)] }
  | _ => m

/-- Embedding of the synchronous addData run on a fresh MarkovChain. -/
def addDataV1 (ss : Nat) (texts : List JSVal) : MarkovModel :=
  texts.foldl (addDataV1Item ss) ⟨[], []⟩

/-- One item of the asynchronous addData (src/bot.js lines 857-892):
the item has already passed the validTexts filter; items with fewer
than stateSize tokens are skipped, and the start state is pushed inside
the loop at i = 0, so an item with exactly stateSize tokens registers a
start state whose transition list stays empty. -/
def addDataV2Item (ss : Nat) (m : MarkovModel) (s : String) : MarkovModel :=
  let words := jsSplitWs (trimStr s)
  if words.length < ss then m
  else
    { chain := addWordsToChain ss words m.chain,
      startStates := m.startStates ++ [joinSpace (words.take ss)] }

/-- The validTexts filter of the asynchronous addData: keep only
strings whose trimmed form is non-empty. -/
def validFilter (v : JSVal) : Option String :=
  match v with
  | .jsStr s => if trimStr s = "" then none else some s
  | _ => none

/-- Embedding of the asynchronous addData (src/bot.js lines 857-892) on
a fresh MarkovChain: throws "No valid training data found" when the
input array is empty, when no element is a non-blank string, or when no
start state was registered. -/
def addDataAsync (ss : Nat) (texts : List JSVal) : Except String MarkovModel :=
  if texts.isEmpty then .error "No valid training data found"
  else
    let validTexts := texts.filterMap validFilter
    if validTexts.isEmpty then .error "No valid training data found"
    else
      let m := validTexts.foldl (addDataV2Item ss) ⟨[], []⟩
      if m.startStates.isEmpty then .error "No valid training data found"
      else .ok m

/-- The inner candidate loop of _generateOnce: walk the shuffled
candidates in order; for each, the prospective next state is the last
stateSize - 1 tokens of the current result followed by the candidate
(result.split(/\s+/).slice(-(stateSize - 1)).concat(nextWord)
.join(" ")); a candidate whose state was already visited is skipped,
and the first fresh one is taken. -/
def findNew (ss : Nat) (result : String) (used : List String) :
    List String → Option (String × String)
  | [] => none
  | w :: ws =>
    let newState := joinSpace (jsSliceNeg (jsSplitWs result) (ss - 1) ++ [w])
    if newState ∈ used then findNew ss result used ws
    else some (w, newState)

/-- The while loop of _generateOnce (src/bot.js lines 912-947), with an
explicit fuel.  The oracle models the shuffle
[...possibleNextWords].sort(() => Math.random() - 0.5): it receives the
iteration index and the candidate list and returns the order in which
the candidates are tried.  All loop exits (unknown state, empty
candidate list, no fresh candidate) are checked before fuel is spent,
so none is returned only when fuel runs out strictly before a loop
exit; walkFuel below always suffices.  The result and the visited set
are both returned. -/
def walkAux (chain : List (String × List String)) (ss : Nat)
    (oracle : Nat → List String → List String) :
    Nat → String → String → List String → Nat → Option (String × List String)
  | 0, result, current, used, step =>
    match lookupChain chain current with
    | none => some (result, used)
    | some ws =>
      if ws.isEmpty then some (result, used)
      else
        match findNew ss result used (oracle step ws) with
        | none => some (result, used)
        | some _ => none
  | fuel + 1, result, current, used, step =>
    match lookupChain chain current with
    | none => some (result, used)
    | some ws =>
      if ws.isEmpty then some (result, used)
      else
        match findNew ss result used (oracle step ws) with
        | none => some (result, used)
        | some (w, newState) =>
          walkAux chain ss oracle fuel (result ++ " " ++ w) newState
            (newState :: used) (step + 1)

/-- Keys of the chain whose candidate list is non-empty: only these can
keep the walk going. -/
def liveKeys (chain : List (String × List String)) : List String :=
  (chain.filter (fun p => !p.2.isEmpty)).map (fun p => p.1)

/-- Fuel that provably suffices for a walk: one more than the number of
live keys not yet visited. -/
def walkFuel (chain : List (String × List String)) (used : List String) : Nat :=
  ((liveKeys chain).filter (fun k => decide (k ∉ used))).length + 1

/-- Embedding of _generateOnce (src/bot.js lines 912-947): throws (none)
when startStates is empty, otherwise picks a start state with the pick
oracle (Math.floor(Math.random() * length) becomes pick % length),
seeds the result and a fresh visited set with it, and runs the walk.
The visited set is returned alongside the result for specification. -/
def generateOnce (chain : List (String × List String)) (ss : Nat)
    (startStates : List String) (pick : Nat)
    (oracle : Nat → List String → List String) : Option (String × List String) :=
  match startStates with
  | [] => none
  | s0 :: rest =>
    let start := (s0 :: rest).get ⟨pick % (s0 :: rest).length, Nat.mod_lt _ (Nat.succ_pos _)⟩
    walkAux chain ss oracle (walkFuel chain [start]) start start [start] 0

/-- The attempt loop of the asynchronous generate (src/bot.js lines
894-910).  once models this._generateOnce() per attempt: none means it
threw "No training data available" (its only throw), which generate
rethrows immediately; any other attempt result is kept only when its
character length lies within [minChars, maxChars].  When the budget is
spent the fixed message "Failed to generate valid text within
constraints" is thrown. -/
def generateAsyncAux (once : Nat → Option String) (minChars maxChars : Nat) :
    Nat → Nat → Except String String
  | 0, _ => .error "Failed to generate valid text within constraints"
  | rem + 1, attempt =>
    match once attempt with
    | none => .error "No training data available"
    | some r =>
      if minChars ≤ r.length ∧ r.length ≤ maxChars then .ok r
      else generateAsyncAux once minChars maxChars rem (attempt + 1)

/-- Embedding of the asynchronous generate (src/bot.js lines 894-910). -/
def generateAsync (once : Nat → Option String) (minChars maxChars maxTries : Nat) :
    Except String String :=
  generateAsyncAux once minChars maxChars maxTries 0

/-- The failure message of the synchronous generate, which interpolates
the configured bounds and the attempt budget. -/
def failMsgV1 (minChars maxChars maxTries : Nat) : String :=
  "Failed to generate text between " ++ toString minChars ++
    (" and " ++ toString maxChars ++
      (" characters after " ++ toString maxTries ++ " attempts"))

/-- The while loop of the synchronous generate (src/bot.js lines
238-257): extend the result while the running length is below maxChars,
stop at unknown or exhausted states, at a falsy candidate, or when the
next word would push the length past maxChars.  pickWord models the
random index per iteration.  Each continuing iteration grows the
running length by at least two, so fuel maxChars + 1 (supplied by
v1Attempt) never runs out. -/
def v1Walk (chain : List (String × List String)) (ss maxChars : Nat)
    (pickWord : Nat → Nat) :
    Nat → List String → String → Nat → Nat → List String
  | 0, rts, _, _, _ => rts
  | fuel + 1, rts, current, curLen, step =>
    if curLen < maxChars then
      match lookupChain chain current with
      | none => rts
      | some ws =>
        if hws : ws = [] then rts
        else
          let w := ws.get ⟨pickWord step % ws.length, Nat.mod_lt _ (List.length_pos.2 hws)⟩
          if w = "" then rts
          else
            let newLen := curLen + 1 + w.length
            if maxChars < newLen then rts
            else v1Walk chain ss maxChars pickWord fuel (rts ++ [w])
              (joinSpace (jsSliceNeg (rts ++ [w]) ss)) newLen (step + 1)
    else rts

/-- One attempt of the synchronous generate: pick a random start state
(an empty startStates array makes the attempt throw, which the caller
catches), seed the result tokens and the running length with it, walk,
and join.  -/
def v1Attempt (chain : List (String × List String)) (ss : Nat)
    (startStates : List String) (pickS : Nat) (pickWord : Nat → Nat)
    (maxChars : Nat) : Option String :=
  match startStates with
  | [] => none
  | s0 :: rest =>
    let start := (s0 :: rest).get ⟨pickS % (s0 :: rest).length, Nat.mod_lt _ (Nat.succ_pos _)⟩
    some (joinSpace (v1Walk chain ss maxChars pickWord (maxChars + 1)
      (jsSplitWs start) start start.length 0))

/-- The attempt loop of the synchronous generate (src/bot.js lines
228-273): a thrown attempt is caught and retried; an in-bounds result
is accepted; after maxTries failures the bounds-reporting error is
thrown. -/
def generateV1Aux (chain : List (String × List String)) (ss : Nat)
    (startStates : List String) (pickS : Nat → Nat) (pickWord : Nat → Nat → Nat)
    (minChars maxChars maxTries : Nat) : Nat → Nat → Except String String
  | 0, _ => .error (failMsgV1 minChars maxChars maxTries)
  | rem + 1, attempt =>
    match v1Attempt chain ss startStates (pickS attempt) (pickWord attempt) maxChars with
    | none => generateV1Aux chain ss startStates pickS pickWord minChars maxChars maxTries rem (attempt + 1)
    | some text =>
      if minChars ≤ text.length ∧ text.length ≤ maxChars then .ok text
      else generateV1Aux chain ss startStates pickS pickWord minChars maxChars maxTries rem (attempt + 1)

/-- Embedding of the synchronous generate (src/bot.js lines 228-273). -/
def generateV1 (chain : List (String × List String)) (ss : Nat)
    (startStates : List String) (pickS : Nat → Nat) (pickWord : Nat → Nat → Nat)
    (minChars maxChars maxTries : Nat) : Except String String :=
  generateV1Aux chain ss startStates pickS pickWord minChars maxChars maxTries maxTries 0

/-- A word as produced by splitting a trimmed string on whitespace:
non-empty and free of whitespace characters. -/
def wordlike (w : String) : Prop :=
  w.data ≠ [] ∧ ∀ c ∈ w.data, isJsWs c = false

instance (w : String) : Decidable (wordlike w) := by
  unfold wordlike; infer_instance

/-
Lemma layer, leading up to the claim theorems.
-/

theorem scanReplace_id (tm : List Char → Option (List Char × List Char)) :
    ∀ l : List Char, (∀ c cs, (c :: cs) <:+ l → tm (c :: cs) = none) →
    ∀ f, scanReplace tm f l = l := by
  intro l
  induction l with
  | nil => intro _ f; cases f <;> rfl
  | cons c cs ih =>
    intro h f
    cases f with
    | zero => rfl
    | succ f =>
      simp only [scanReplace, h c cs (List.suffix_refl _)]
      exact congrArg (c :: ·)
        (ih (fun d ds hsuf => h d ds (hsuf.trans (List.suffix_cons c cs))) f)

theorem runScan_id (tm : List Char → Option (List Char × List Char)) (s : String)
    (h : ∀ c cs, (c :: cs) <:+ s.data → tm (c :: cs) = none) : runScan tm s = s := by
  unfold runScan
  rw [scanReplace_id tm s.data h]

theorem closeTagTm_none {c : Char} (cs : List Char) (h : c ≠ '<') :
    closeTagTm (c :: cs) = none := by
  unfold closeTagTm
  split <;> simp_all

theorem openTagTm_none {c : Char} (cs : List Char) (h : c ≠ '<') :
    openTagTm (c :: cs) = none := by
  unfold openTagTm
  split <;> simp_all

theorem anyTagTm_none {c : Char} (cs : List Char) (h : c ≠ '<') :
    anyTagTm (c :: cs) = none := by
  unfold anyTagTm
  split <;> simp_all

theorem all_ws_no_lt {s : String} (h : ∀ c ∈ s.data, isJsWs c = true)
    {c : Char} {cs : List Char} (hsuf : (c :: cs) <:+ s.data) : c ≠ '<' := by
  intro hc
  subst hc
  have hm : '<' ∈ s.data := hsuf.subset (List.mem_cons_self _ _)
  have := h _ hm
  simp [isJsWs] at this

theorem collapseWs_all_ws (s : String) (hne : s.data ≠ [])
    (h : ∀ c ∈ s.data, isJsWs c = true) : collapseWs s = " " := by
  unfold collapseWs runScan
  rcases hd : s.data with _ | ⟨c, cs⟩
  · exact absurd hd hne
  · have hc : isJsWs c = true := h c (by rw [hd]; exact List.mem_cons_self _ _)
    have hrest : cs.dropWhile isJsWs = [] :=
      List.dropWhile_eq_nil_iff.2
        (fun a ha => h a (by rw [hd]; exact List.mem_cons_of_mem c ha))
    simp only [List.length_cons, scanReplace, wsRunTm, hc, if_true, hrest]
    rfl

theorem trimStr_single_space : trimStr " " = "" := rfl

theorem removeExcluded_empty (ws : List String) : removeExcluded ws "" = "" := rfl

theorem stripHtmlTags_all_ws (s : String) (hne : s.data ≠ [])
    (h : ∀ c ∈ s.data, isJsWs c = true) : stripHtmlTags s = "" := by
  unfold stripHtmlTags
  rw [runScan_id closeTagTm s (fun c cs hsuf => closeTagTm_none cs (all_ws_no_lt h hsuf)),
    runScan_id openTagTm s (fun c cs hsuf => openTagTm_none cs (all_ws_no_lt h hsuf)),
    runScan_id anyTagTm s (fun c cs hsuf => anyTagTm_none cs (all_ws_no_lt h hsuf)),
    collapseWs_all_ws s hne h]
  rfl

theorem cleanText_all_ws (ews : List String) (s : String)
    (h : ∀ c ∈ s.data, isJsWs c = true) : cleanText ews (JSVal.jsStr s) = "" := by
  by_cases hs : s = ""
  · simp [cleanText, hs]
  · have hne : s.data ≠ [] := by
      intro hd
      exact hs (by cases s; cases hd; rfl)
    have h1 : stripHtmlTags s = "" := stripHtmlTags_all_ws s hne h
    simp only [cleanText, if_neg hs, h1]
    by_cases he : ews.isEmpty
    · simp only [he, if_true]
      rfl
    · simp only [he, if_false, Bool.false_eq_true]
      rw [show removeRT (removeMentions (removeUrls (trimStr (collapseWs
        (removeControl (decodeHtmlEntities "")))))) = "" from rfl]
      rw [show trimStr (collapseWs ("" : String)) = "" from rfl]
      rw [removeExcluded_empty]
      rfl

theorem splitWsAux_accum :
    ∀ (pre acc rest : List Char), (∀ c ∈ pre, isJsWs c = false) →
    splitWsAux (some acc) (pre ++ rest) = splitWsAux (some (pre.reverse ++ acc)) rest := by
  intro pre
  induction pre with
  | nil => intro acc rest _; simp
  | cons c p ih =>
    intro acc rest h
    have hc : isJsWs c = false := h c (List.mem_cons_self c p)
    simp only [List.cons_append, splitWsAux, hc, Bool.false_eq_true, if_false, List.append_eq]
    rw [ih (c :: acc) rest (fun d hd => h d (List.mem_cons_of_mem c hd))]
    simp [List.append_assoc]

theorem joinSpace_cons (w t : String) (ts : List String) :
    joinSpace (w :: t :: ts) = w ++ " " ++ joinSpace (t :: ts) := rfl

theorem joinSpace_head_not_ws :
    ∀ ts : List String, ts ≠ [] → (∀ w ∈ ts, wordlike w) →
    ∃ d cs, (joinSpace ts).data = d :: cs ∧ isJsWs d = false := by
  intro ts
  match ts with
  | [] => intro h; exact absurd rfl h
  | [t] =>
    intro _ hw
    obtain ⟨hne, hc⟩ := hw t (List.mem_cons_self _ _)
    rcases hd : t.data with _ | ⟨d, cs⟩
    · exact absurd hd hne
    · exact ⟨d, cs, hd, hc d (by rw [hd]; exact List.mem_cons_self _ _)⟩
  | t :: t2 :: ts =>
    intro _ hw
    obtain ⟨hne, hc⟩ := hw t (List.mem_cons_self _ _)
    rcases hd : t.data with _ | ⟨d, cs⟩
    · exact absurd hd hne
    · refine ⟨d, cs ++ (" " ++ joinSpace (t2 :: ts)).data, ?_, hc d (by rw [hd]; exact List.mem_cons_self _ _)⟩
      rw [joinSpace_cons, String.append_assoc, String.data_append, hd]
      simp

theorem splitWsAux_none_eq (d : Char) (cs : List Char) (hd : isJsWs d = false) :
    splitWsAux none (d :: cs) = splitWsAux (some []) (d :: cs) := by
  simp [splitWsAux, hd]

theorem jsSplitWs_joinSpace :
    ∀ ts : List String, ts ≠ [] → (∀ w ∈ ts, wordlike w) →
    jsSplitWs (joinSpace ts) = ts := by
  intro ts
  induction ts with
  | nil => intro h; exact absurd rfl h
  | cons w ts ih =>
    intro _ hw
    obtain ⟨hwne, hwc⟩ := hw w (List.mem_cons_self _ _)
    match ts with
    | [] =>
      show splitWsAux (some []) w.data = [w]
      rw [show w.data = w.data ++ [] by simp, splitWsAux_accum w.data [] [] hwc]
      simp [splitWsAux]
    | t :: ts2 =>
      have hts : (t :: ts2 : List String) ≠ [] := by simp
      have hwts : ∀ x ∈ t :: ts2, wordlike x := fun x hx => hw x (List.mem_cons_of_mem w hx)
      show splitWsAux (some []) (joinSpace (w :: t :: ts2)).data = w :: t :: ts2
      rw [joinSpace_cons, String.append_assoc, String.data_append]
      rw [show (" " ++ joinSpace (t :: ts2)).data = ' ' :: (joinSpace (t :: ts2)).data from rfl]
      rw [splitWsAux_accum w.data [] _ hwc]
      simp only [splitWsAux, isJsWs, if_true]
      obtain ⟨d, cs, hd, hdws⟩ := joinSpace_head_not_ws (t :: ts2) hts hwts
      rw [hd, splitWsAux_none_eq d cs hdws, ← hd]
      have := ih hts hwts
      unfold jsSplitWs at this
      rw [this]
      simp [List.append_nil]

theorem joinSpace_append_word :
    ∀ (ts : List String) (w : String), ts ≠ [] →
    joinSpace ts ++ " " ++ w = joinSpace (ts ++ [w]) := by
  intro ts
  induction ts with
  | nil => intro w h; exact absurd rfl h
  | cons t ts ih =>
    intro w _
    match ts with
    | [] => rfl
    | t2 :: ts2 =>
      have h2 : (t2 :: ts2 : List String) ≠ [] := by simp
      show (t ++ " " ++ joinSpace (t2 :: ts2)) ++ " " ++ w = joinSpace (t :: (t2 :: ts2) ++ [w])
      simp only [List.cons_append, joinSpace_cons]
      simp only [List.cons_append] at ih
      rw [← ih w h2]
      simp [String.append_assoc]

theorem length_filter_mono {α : Type} (l : List α) (p q : α → Bool)
    (h : ∀ a, p a = true → q a = true) :
    (l.filter p).length ≤ (l.filter q).length := by
  induction l with
  | nil => simp
  | cons a t ih =>
    by_cases hp : p a = true
    · simp [List.filter, hp, h a hp]; omega
    · simp only [List.filter]
      cases hq : q a <;> simp [hp, hq] <;> omega

theorem length_filter_excl_lt (l : List String) (k : String) (used : List String)
    (hk : k ∈ l) (hku : k ∉ used) :
    (l.filter (fun x => decide (x ∉ k :: used))).length <
      (l.filter (fun x => decide (x ∉ used))).length := by
  induction l with
  | nil => cases hk
  | cons a t ih =>
    have hmono : ∀ x : String, decide (x ∉ k :: used) = true → decide (x ∉ used) = true := by
      intro x hx
      simp only [decide_eq_true_eq] at hx ⊢
      exact fun hm => hx (List.mem_cons_of_mem k hm)
    by_cases hak : a = k
    · have h1 : decide (a ∉ k :: used) = false := by
        subst hak; simp
      have h2 : decide (a ∉ used) = true := by
        subst hak; simpa using hku
      simp only [List.filter_cons, h1, h2, if_true, Bool.false_eq_true, if_false]
      have hm := length_filter_mono t (fun x => decide (x ∉ k :: used))
        (fun x => decide (x ∉ used)) hmono
      simp only [List.length_cons]
      omega
    · have hk2 : k ∈ t := by
        rcases List.mem_cons.1 hk with h | h
        · exact absurd h.symm hak
        · exact h
      have heq : decide (a ∉ k :: used) = decide (a ∉ used) := by
        by_cases ha : a ∈ used
        · simp [ha, List.mem_cons_of_mem k ha]
        · simp [ha, List.mem_cons, hak]
      cases hd : decide (a ∉ used) with
      | true =>
        simp only [List.filter_cons, heq, hd, if_true, List.length_cons]
        exact Nat.succ_lt_succ (ih hk2)
      | false =>
        simp only [List.filter_cons, heq, hd, Bool.false_eq_true, if_false]
        exact ih hk2

theorem lookupChain_mem :
    ∀ (chain : List (String × List String)) (k : String) (v : List String),
    lookupChain chain k = some v → (k, v) ∈ chain := by
  intro chain
  induction chain with
  | nil => intro k v h; cases h
  | cons p ps ih =>
    intro k v h
    unfold lookupChain at h
    by_cases hp : p.1 = k
    · rw [if_pos hp] at h
      cases h
      exact List.mem_cons.2 (Or.inl (by rw [← hp]))
    · rw [if_neg hp] at h
      exact List.mem_cons_of_mem p (ih k v h)

theorem findNew_spec :
    ∀ (cand : List String) (ss : Nat) (result : String) (used : List String)
    (w ns : String), findNew ss result used cand = some (w, ns) →
    ns ∉ used ∧ w ∈ cand ∧
      ns = joinSpace (jsSliceNeg (jsSplitWs result) (ss - 1) ++ [w]) := by
  intro cand
  induction cand with
  | nil => intro ss result used w ns h; cases h
  | cons x xs ih =>
    intro ss result used w ns h
    unfold findNew at h
    by_cases hm : joinSpace (jsSliceNeg (jsSplitWs result) (ss - 1) ++ [x]) ∈ used
    · rw [if_pos hm] at h
      obtain ⟨h1, h2, h3⟩ := ih ss result used w ns h
      exact ⟨h1, List.mem_cons_of_mem x h2, h3⟩
    · rw [if_neg hm] at h
      cases h
      exact ⟨hm, List.mem_cons_self x xs, rfl⟩

theorem liveKeys_of_lookup (chain : List (String × List String)) (k : String)
    (ws : List String) (hl : lookupChain chain k = some ws) (hne : ws.isEmpty = false) :
    k ∈ liveKeys chain := by
  have hmem := lookupChain_mem chain k ws hl
  unfold liveKeys
  refine List.mem_map.2 ⟨(k, ws), List.mem_filter.2 ⟨hmem, ?_⟩, rfl⟩
  simp [hne]

theorem walkAux_isSome (chain : List (String × List String)) (ss : Nat)
    (oracle : Nat → List String → List String) :
    ∀ (fuel : Nat) (result current : String) (used : List String) (step : Nat),
    walkFuel chain used ≤ fuel →
    (walkAux chain ss oracle fuel result current used step).isSome = true := by
  intro fuel
  induction fuel with
  | zero =>
    intro result current used step hf
    exact absurd hf (by simp [walkFuel])
  | succ f ih =>
    intro result current used step hf
    rw [walkAux]
    cases hl : lookupChain chain current with
    | none => rfl
    | some ws =>
      by_cases hws : ws.isEmpty
      · simp [hws]
      · simp only [hws, Bool.false_eq_true, if_false]
        cases hfn : findNew ss result used (oracle step ws) with
        | none => rfl
        | some p =>
          obtain ⟨w, ns⟩ := p
          obtain ⟨hnsu, _, _⟩ := findNew_spec _ _ _ _ _ _ hfn
          cases hl2 : lookupChain chain ns with
          | none => cases f <;> simp [walkAux, hl2]
          | some ws2 =>
            by_cases hws2 : ws2.isEmpty
            · cases f <;> simp [walkAux, hl2, hws2]
            · have hlive : ns ∈ liveKeys chain :=
                liveKeys_of_lookup chain ns ws2 hl2 (by simpa using hws2)
              have hlt : walkFuel chain (ns :: used) < walkFuel chain used := by
                unfold walkFuel
                have := length_filter_excl_lt (liveKeys chain) ns used hlive hnsu
                omega
              exact ih _ _ _ _ (by omega)

theorem walkAux_nodup (chain : List (String × List String)) (ss : Nat)
    (oracle : Nat → List String → List String) :
    ∀ (fuel : Nat) (result current : String) (used : List String) (step : Nat)
    (r : String) (used2 : List String),
    used.Nodup → walkAux chain ss oracle fuel result current used step = some (r, used2) →
    used2.Nodup := by
  intro fuel
  induction fuel with
  | zero =>
    intro result current used step r used2 hn h
    rw [walkAux] at h
    cases hl : lookupChain chain current with
    | none => rw [hl] at h; cases h; exact hn
    | some ws =>
      rw [hl] at h
      by_cases hws : ws.isEmpty
      · simp only [hws, if_true] at h; cases h; exact hn
      · simp only [hws, Bool.false_eq_true, if_false] at h
        cases hfn : findNew ss result used (oracle step ws) with
        | none => rw [hfn] at h; cases h; exact hn
        | some p => rw [hfn] at h; cases h
  | succ f ih =>
    intro result current used step r used2 hn h
    rw [walkAux] at h
    cases hl : lookupChain chain current with
    | none => rw [hl] at h; cases h; exact hn
    | some ws =>
      rw [hl] at h
      by_cases hws : ws.isEmpty
      · simp only [hws, if_true] at h; cases h; exact hn
      · simp only [hws, Bool.false_eq_true, if_false] at h
        cases hfn : findNew ss result used (oracle step ws) with
        | none => rw [hfn] at h; cases h; exact hn
        | some p =>
          obtain ⟨w, ns⟩ := p
          rw [hfn] at h
          obtain ⟨hnsu, _, _⟩ := findNew_spec _ _ _ _ _ _ hfn
          exact ih _ _ _ _ _ _ (List.nodup_cons.2 ⟨hnsu, hn⟩) h

theorem walkAux_token_width (chain : List (String × List String)) (ss : Nat)
    (oracle : Nat → List String → List String)
    (hss : 2 ≤ ss)
    (hchain : ∀ p ∈ chain, ∀ w ∈ p.2, wordlike w)
    (horacle : ∀ k ws, ∀ w ∈ oracle k ws, w ∈ ws) :
    ∀ (fuel : Nat) (rts : List String) (current : String) (used : List String)
    (step : Nat) (r : String) (used2 : List String),
    (∀ w ∈ rts, wordlike w) → ss - 1 ≤ rts.length →
    (∀ s ∈ used, (jsSplitWs s).length = ss) →
    walkAux chain ss oracle fuel (joinSpace rts) current used step = some (r, used2) →
    ∀ s ∈ used2, (jsSplitWs s).length = ss := by
  intro fuel
  induction fuel with
  | zero =>
    intro rts current used step r used2 _ _ hused h
    rw [walkAux] at h
    cases hl : lookupChain chain current with
    | none => rw [hl] at h; cases h; exact hused
    | some ws =>
      rw [hl] at h
      by_cases hws : ws.isEmpty
      · simp only [hws, if_true] at h; cases h; exact hused
      · simp only [hws, Bool.false_eq_true, if_false] at h
        cases hfn : findNew ss (joinSpace rts) used (oracle step ws) with
        | none => rw [hfn] at h; cases h; exact hused
        | some p => rw [hfn] at h; cases h
  | succ f ih =>
    intro rts current used step r used2 hrts hlen hused h
    rw [walkAux] at h
    cases hl : lookupChain chain current with
    | none => rw [hl] at h; cases h; exact hused
    | some ws =>
      rw [hl] at h
      by_cases hws : ws.isEmpty
      · simp only [hws, if_true] at h; cases h; exact hused
      · simp only [hws, Bool.false_eq_true, if_false] at h
        cases hfn : findNew ss (joinSpace rts) used (oracle step ws) with
        | none => rw [hfn] at h; cases h; exact hused
        | some p =>
          obtain ⟨w, ns⟩ := p
          rw [hfn] at h
          obtain ⟨hnsu, hwor, hns⟩ := findNew_spec _ _ _ _ _ _ hfn
          have hwws : w ∈ ws := horacle step ws w hwor
          have hword : wordlike w :=
            hchain _ (lookupChain_mem chain current ws hl) w hwws
          have hrne : rts ≠ [] := by
            intro h0
            subst h0
            simp at hlen
            omega
          have hsplit : jsSplitWs (joinSpace rts) = rts := jsSplitWs_joinSpace rts hrne hrts
          rw [hsplit] at hns
          have hs1 : ss - 1 ≠ 0 := by omega
          have hslice : jsSliceNeg rts (ss - 1) = rts.drop (rts.length - (ss - 1)) := by
            unfold jsSliceNeg
            rw [if_neg hs1]
          have hslen : (jsSliceNeg rts (ss - 1)).length = ss - 1 := by
            rw [hslice, List.length_drop, Nat.sub_sub_self hlen]
          have hsw : ∀ x ∈ jsSliceNeg rts (ss - 1), wordlike x := by
            intro x hx
            rw [hslice] at hx
            exact hrts x (List.mem_of_mem_drop hx)
          have hallw : ∀ x ∈ jsSliceNeg rts (ss - 1) ++ [w], wordlike x := by
            intro x hx
            rcases List.mem_append.1 hx with hx | hx
            · exact hsw x hx
            · rw [List.mem_singleton.1 hx]
              exact hword
          have hnstok : jsSplitWs ns = jsSliceNeg rts (ss - 1) ++ [w] := by
            rw [hns]
            exact jsSplitWs_joinSpace _ (by simp) hallw
          have hnslen : (jsSplitWs ns).length = ss := by
            rw [hnstok]
            simp only [List.length_append, List.length_singleton, hslen]
            omega
          have h2 : walkAux chain ss oracle f (joinSpace rts ++ " " ++ w) ns
              (ns :: used) (step + 1) = some (r, used2) := h
          rw [joinSpace_append_word rts w hrne] at h2
          refine ih (rts ++ [w]) ns (ns :: used) (step + 1) r used2 ?_ ?_ ?_ h2
          · intro x hx
            rcases List.mem_append.1 hx with hx | hx
            · exact hrts x hx
            · rw [List.mem_singleton.1 hx]
              exact hword
          · simp only [List.length_append, List.length_singleton]
            omega
          · intro s hs
            rcases List.mem_cons.1 hs with hs | hs
            · rw [hs]
              exact hnslen
            · exact hused s hs

theorem generateAsyncAux_ok (once : Nat → Option String) (minChars maxChars : Nat) :
    ∀ (rem attempt : Nat) (s : String),
    generateAsyncAux once minChars maxChars rem attempt = .ok s →
    minChars ≤ s.length ∧ s.length ≤ maxChars := by
  intro rem
  induction rem with
  | zero => intro a s h; cases h
  | succ rem ih =>
    intro a s h
    rw [generateAsyncAux] at h
    cases ho : once a with
    | none => rw [ho] at h; cases h
    | some r =>
      rw [ho] at h
      have h2 : (if minChars ≤ r.length ∧ r.length ≤ maxChars then Except.ok r
          else generateAsyncAux once minChars maxChars rem (a + 1)) = Except.ok s := h
      by_cases hc : minChars ≤ r.length ∧ r.length ≤ maxChars
      · rw [if_pos hc] at h2
        cases h2
        exact hc
      · rw [if_neg hc] at h2
        exact ih _ _ h2

theorem generateAsyncAux_error (once : Nat → Option String) (minChars maxChars : Nat) :
    ∀ (rem attempt : Nat) (m : String),
    generateAsyncAux once minChars maxChars rem attempt = .error m →
    m = "No training data available" ∨
      m = "Failed to generate valid text within constraints" := by
  intro rem
  induction rem with
  | zero =>
    intro a m h
    rw [generateAsyncAux] at h
    cases h
    exact Or.inr rfl
  | succ rem ih =>
    intro a m h
    rw [generateAsyncAux] at h
    cases ho : once a with
    | none => rw [ho] at h; cases h; exact Or.inl rfl
    | some r =>
      rw [ho] at h
      have h2 : (if minChars ≤ r.length ∧ r.length ≤ maxChars then Except.ok r
          else generateAsyncAux once minChars maxChars rem (a + 1)) = Except.error m := h
      by_cases hc : minChars ≤ r.length ∧ r.length ≤ maxChars
      · rw [if_pos hc] at h2; cases h2
      · rw [if_neg hc] at h2
        exact ih _ _ h2

theorem generateV1Aux_ok (chain : List (String × List String)) (ss : Nat)
    (startStates : List String) (pickS : Nat → Nat) (pickWord : Nat → Nat → Nat)
    (minChars maxChars maxTries : Nat) :
    ∀ (rem attempt : Nat) (s : String),
    generateV1Aux chain ss startStates pickS pickWord minChars maxChars maxTries rem attempt = .ok s →
    minChars ≤ s.length ∧ s.length ≤ maxChars := by
  intro rem
  induction rem with
  | zero => intro a s h; cases h
  | succ rem ih =>
    intro a s h
    rw [generateV1Aux] at h
    cases ho : v1Attempt chain ss startStates (pickS a) (pickWord a) maxChars with
    | none => rw [ho] at h; exact ih _ _ h
    | some text =>
      rw [ho] at h
      have h2 : (if minChars ≤ text.length ∧ text.length ≤ maxChars then Except.ok text
          else generateV1Aux chain ss startStates pickS pickWord minChars maxChars maxTries rem (a + 1)) = Except.ok s := h
      by_cases hc : minChars ≤ text.length ∧ text.length ≤ maxChars
      · rw [if_pos hc] at h2
        cases h2
        exact hc
      · rw [if_neg hc] at h2
        exact ih _ _ h2

theorem generateV1Aux_error (chain : List (String × List String)) (ss : Nat)
    (startStates : List String) (pickS : Nat → Nat) (pickWord : Nat → Nat → Nat)
    (minChars maxChars maxTries : Nat) :
    ∀ (rem attempt : Nat) (m : String),
    generateV1Aux chain ss startStates pickS pickWord minChars maxChars maxTries rem attempt = .error m →
    m = failMsgV1 minChars maxChars maxTries := by
  intro rem
  induction rem with
  | zero =>
    intro a m h
    rw [generateV1Aux] at h
    cases h
    rfl
  | succ rem ih =>
    intro a m h
    rw [generateV1Aux] at h
    cases ho : v1Attempt chain ss startStates (pickS a) (pickWord a) maxChars with
    | none => rw [ho] at h; exact ih _ _ h
    | some text =>
      rw [ho] at h
      have h2 : (if minChars ≤ text.length ∧ text.length ≤ maxChars then Except.ok text
          else generateV1Aux chain ss startStates pickS pickWord minChars maxChars maxTries rem (a + 1)) = Except.error m := h
      by_cases hc : minChars ≤ text.length ∧ text.length ≤ maxChars
      · rw [if_pos hc] at h2; cases h2
      · rw [if_neg hc] at h2
        exact ih _ _ h2

theorem str_infix_of_eq (m a b c : String) (h : m = a ++ (b ++ c)) :
    b.data <:+: m.data := by
  subst h
  exact ⟨a.data, c.data, by simp [String.data_append]⟩

theorem failMsgV1_group_min (a b c : Nat) :
    failMsgV1 a b c = "Failed to generate text between " ++
      (toString a ++ (" and " ++ (toString b ++
        (" characters after " ++ (toString c ++ " attempts"))))) := by
  simp [failMsgV1, String.append_assoc]

theorem failMsgV1_group_max (a b c : Nat) :
    failMsgV1 a b c = ("Failed to generate text between " ++ toString a ++ " and ") ++
      (toString b ++ (" characters after " ++ (toString c ++ " attempts"))) := by
  simp [failMsgV1, String.append_assoc]

theorem failMsgV1_group_tries (a b c : Nat) :
    failMsgV1 a b c = ("Failed to generate text between " ++ toString a ++ " and " ++
      toString b ++ " characters after ") ++ (toString c ++ " attempts") := by
  simp [failMsgV1, String.append_assoc]

theorem addDataV2Item_skip (ss : Nat) (m : MarkovModel) (s : String)
    (h : (jsSplitWs (trimStr s)).length < ss) : addDataV2Item ss m s = m := by
  simp only [addDataV2Item]
  rw [if_pos h]

theorem addDataV2Item_reg (ss : Nat) (m : MarkovModel) (s : String)
    (h : ¬ (jsSplitWs (trimStr s)).length < ss) :
    addDataV2Item ss m s =
      ⟨addWordsToChain ss (jsSplitWs (trimStr s)) m.chain,
       m.startStates ++ [joinSpace ((jsSplitWs (trimStr s)).take ss)]⟩ := by
  simp only [addDataV2Item]
  rw [if_neg h]

theorem addDataV2_foldl_startStates (ss : Nat) :
    ∀ (ts : List String) (m : MarkovModel),
    (ts.foldl (addDataV2Item ss) m).startStates =
      m.startStates ++
        (ts.filter (fun s => decide (ss ≤ (jsSplitWs (trimStr s)).length))).map
          (fun s => joinSpace ((jsSplitWs (trimStr s)).take ss)) := by
  intro ts
  induction ts with
  | nil => intro m; simp
  | cons s t ih =>
    intro m
    rw [List.foldl_cons, ih]
    by_cases h : (jsSplitWs (trimStr s)).length < ss
    · have hd : decide (ss ≤ (jsSplitWs (trimStr s)).length) = false := by
        simp only [decide_eq_false_iff_not]
        omega
      rw [List.filter_cons, hd]
      simp only [Bool.false_eq_true, if_false]
      rw [addDataV2Item_skip ss m s h]
    · have hd : decide (ss ≤ (jsSplitWs (trimStr s)).length) = true := by
        simp only [decide_eq_true_eq]
        omega
      rw [List.filter_cons, hd]
      simp only [if_true, List.map_cons]
      rw [addDataV2Item_reg ss m s h]
      simp [List.append_assoc]

theorem decodeEntAux_accum :
    ∀ (b acc cs : List Char), (∀ x ∈ b, x ≠ ';') →
    decodeEntAux (some acc) (b ++ cs) = decodeEntAux (some (b.reverse ++ acc)) cs := by
  intro b
  induction b with
  | nil => intro acc cs _; simp
  | cons x b ih =>
    intro acc cs h
    have hx : x ≠ ';' := h x (List.mem_cons_self x b)
    simp only [List.cons_append, decodeEntAux, if_neg hx, List.append_eq]
    rw [ih (x :: acc) cs (fun d hd => h d (List.mem_cons_of_mem x hd))]
    simp [List.append_assoc]

theorem decode_unknown_span :
    ∀ (a b c : List Char), (∀ x ∈ a, x ≠ '&') → (∀ x ∈ b, x ≠ ';') → b ≠ [] →
    entityLookup ⟨'&' :: (b ++ [';'])⟩ = "" →
    decodeEntAux none (a ++ '&' :: (b ++ ';' :: c)) = a ++ decodeEntAux none c := by
  intro a
  induction a with
  | nil =>
    intro b c _ hb hbne hlk
    simp only [List.nil_append]
    rw [show decodeEntAux none ('&' :: (b ++ ';' :: c)) =
      decodeEntAux (some []) (b ++ ';' :: c) from by simp [decodeEntAux]]
    rw [decodeEntAux_accum b [] (';' :: c) hb]
    rcases hbr : b.reverse with _ | ⟨d, ds⟩
    · exact absurd (by simpa using congrArg List.reverse hbr) hbne
    · simp only [List.append_nil, hbr, decodeEntAux, if_pos rfl]
      have : (⟨'&' :: ((d :: ds).reverse ++ [';'])⟩ : String) = ⟨'&' :: (b ++ [';'])⟩ := by
        rw [← hbr]
        simp
      rw [this, hlk]
      rfl
  | cons x a ih =>
    intro b c ha hb hbne hlk
    have hx : x ≠ '&' := ha x (List.mem_cons_self x a)
    simp only [List.cons_append, decodeEntAux, if_neg hx, List.append_eq]
    rw [ih b c (fun d hd => ha d (List.mem_cons_of_mem x hd)) hb hbne hlk]

theorem validFilter_mem (texts : List JSVal) (s : String) :
    s ∈ texts.filterMap validFilter ↔
      (JSVal.jsStr s ∈ texts ∧ trimStr s ≠ "") := by
  rw [List.mem_filterMap]
  constructor
  · rintro ⟨v, hv, hfv⟩
    cases v with
    | jsStr s0 =>
      have hfv2 : (if trimStr s0 = "" then (none : Option String) else some s0) = some s := hfv
      by_cases h0 : trimStr s0 = ""
      · rw [if_pos h0] at hfv2
        cases hfv2
      · rw [if_neg h0] at hfv2
        cases hfv2
        exact ⟨hv, h0⟩
    | jsNull => cases hfv
    | jsUndefined => cases hfv
    | jsBool b => cases hfv
    | jsNum n => cases hfv
  · rintro ⟨hv, hne⟩
    refine ⟨JSVal.jsStr s, hv, ?_⟩
    show (if trimStr s = "" then (none : Option String) else some s) = some s
    rw [if_neg hne]

theorem addDataAsync_ok_iff (ss : Nat) (texts : List JSVal) :
    (addDataAsync ss texts).toOption.isSome = true ↔
      ∃ s : String, JSVal.jsStr s ∈ texts ∧ trimStr s ≠ "" ∧
        ss ≤ (jsSplitWs (trimStr s)).length := by
  unfold addDataAsync
  by_cases hte : texts.isEmpty
  · rw [if_pos hte]
    have hteq : texts = [] := List.isEmpty_iff.1 hte
    subst hteq
    simp [Except.toOption]
  · rw [if_neg hte]
    by_cases hve : (texts.filterMap validFilter).isEmpty
    · rw [if_pos hve]
      have hveq : texts.filterMap validFilter = [] := List.isEmpty_iff.1 hve
      simp only [Except.toOption]
      constructor
      · intro h
        cases h
      · rintro ⟨s, hv, hne, _⟩
        have hmem : s ∈ texts.filterMap validFilter := (validFilter_mem texts s).2 ⟨hv, hne⟩
        rw [hveq] at hmem
        cases hmem
    · rw [if_neg hve]
      have hfold := addDataV2_foldl_startStates ss (texts.filterMap validFilter) ⟨[], []⟩
      by_cases hms : ((texts.filterMap validFilter).foldl (addDataV2Item ss)
          ⟨[], []⟩).startStates.isEmpty
      · rw [if_pos hms]
        rw [List.isEmpty_iff, hfold, List.nil_append, List.map_eq_nil_iff] at hms
        simp only [Except.toOption]
        constructor
        · intro h
          cases h
        · rintro ⟨s, hv, hne, hlen⟩
          have hsm : s ∈ texts.filterMap validFilter := (validFilter_mem texts s).2 ⟨hv, hne⟩
          have hmf : s ∈ (texts.filterMap validFilter).filter
              (fun s => decide (ss ≤ (jsSplitWs (trimStr s)).length)) :=
            List.mem_filter.2 ⟨hsm, by simpa using hlen⟩
          rw [hms] at hmf
          cases hmf
      · rw [if_neg hms]
        simp only [Except.toOption, Option.isSome, true_iff]
        rw [List.isEmpty_iff, hfold, List.nil_append, List.map_eq_nil_iff] at hms
        obtain ⟨s, hs⟩ := List.exists_mem_of_ne_nil _ hms
        obtain ⟨hsm, hdec⟩ := List.mem_filter.1 hs
        obtain ⟨hv, hne⟩ := (validFilter_mem texts s).1 hsm
        exact ⟨s, hv, hne, by simpa using hdec⟩

/-
Claim theorems.
-/

/-- C1: every GenerationResult returned by MarkovChain.generate (both
the asynchronous version at src/bot.js lines 894-910 and the
synchronous version at lines 228-273) has character length at least
minChars and at most maxChars, both bounds inclusive; an out-of-bounds
walk is discarded and exhausting the attempt budget yields an error,
never an out-of-bounds result. -/
theorem c1_generate_length_bounds :
    (∀ (once : Nat → Option String) (minChars maxChars maxTries : Nat) (s : String),
      generateAsync once minChars maxChars maxTries = .ok s →
      minChars ≤ s.length ∧ s.length ≤ maxChars) ∧
    (∀ (chain : List (String × List String)) (ss : Nat) (startStates : List String)
      (pickS : Nat → Nat) (pickWord : Nat → Nat → Nat)
      (minChars maxChars maxTries : Nat) (s : String),
      generateV1 chain ss startStates pickS pickWord minChars maxChars maxTries = .ok s →
      minChars ≤ s.length ∧ s.length ≤ maxChars) :=
  ⟨fun once a b c s h => generateAsyncAux_ok once a b c 0 s h,
   fun chain ss st ps pw a b c s h => generateV1Aux_ok chain ss st ps pw a b c c 0 s h⟩

/-- C1 witness: a concrete accepted result of each generate variant,
with its length inside the configured bounds. -/
theorem c1_witness :
    (3 ≤ ("abcdef" : String).length ∧ ("abcdef" : String).length ≤ 10) ∧
    (1 ≤ ("a b c" : String).length ∧ ("a b c" : String).length ≤ 20) :=
  ⟨c1_generate_length_bounds.1 (fun _ => some "abcdef") 3 10 2 "abcdef" rfl,
   c1_generate_length_bounds.2 [("a b", ["c"]), ("b c", [])] 2 ["a b"]
     (fun _ => 0) (fun _ _ => 0) 1 20 3 "a b c" rfl⟩

/-- C2 (amended): the synchronous addData registers a start state and
transitions for an item only if it has at least stateSize + 1 tokens
(an item below that threshold contributes nothing at all), but the
asynchronous addData requires only stateSize tokens: an item with
exactly stateSize tokens registers its full token list as a start state
while adding no transition word (its chain entry, if new, stays empty). -/
theorem c2_addData_token_threshold :
    (∀ (ss : Nat) (m : MarkovModel) (s : String),
      (jsSplitWs (trimStr s)).length < ss + 1 →
      addDataV1Item ss m (JSVal.jsStr s) = m) ∧
    (∀ (ss : Nat) (m : MarkovModel) (s : String),
      trimStr s ≠ "" → ss + 1 ≤ (jsSplitWs (trimStr s)).length →
      (addDataV1Item ss m (JSVal.jsStr s)).startStates =
        m.startStates ++ [joinSpace ((jsSplitWs (trimStr s)).take ss)]) ∧
    (∀ (ss : Nat) (m : MarkovModel) (s : String),
      (jsSplitWs (trimStr s)).length = ss →
      (addDataV2Item ss m s).startStates =
        m.startStates ++ [joinSpace (jsSplitWs (trimStr s))] ∧
      (addDataV2Item ss m s).chain =
        chainEnsure m.chain (joinSpace (jsSplitWs (trimStr s)))) := by
  refine ⟨?_, ?_, ?_⟩
  · intro ss m s h
    simp only [addDataV1Item]
    by_cases h0 : trimStr s = ""
    · rw [if_pos h0]
    · rw [if_neg h0, if_pos h]
  · intro ss m s h0 h1
    simp only [addDataV1Item]
    rw [if_neg h0, if_neg (by omega)]
  · intro ss m s h
    rw [addDataV2Item_reg ss m s (by omega)]
    constructor
    · simp only []
      rw [List.take_of_length_le (by omega)]
    · simp only []
      unfold addWordsToChain
      rw [h, Nat.sub_self, show List.range (0 + 1) = [0] by decide, List.foldl_cons, List.foldl_nil]
      rw [List.drop_zero, List.take_of_length_le (by omega),
        List.get?_eq_none.2 (by omega)]
      rfl

/-- C2 witness: with stateSize 2, the synchronous addData skips the
two-token-short item "hi" entirely, registers a start state for
"a b c", and the asynchronous addData registers the exactly-two-token
item "a b" as a start state. -/
theorem c2_witness :
    addDataV1Item 2 ⟨[], []⟩ (JSVal.jsStr "hi") = ⟨[], []⟩ ∧
    (addDataV1Item 2 ⟨[], []⟩ (JSVal.jsStr "a b c")).startStates =
      (⟨[], []⟩ : MarkovModel).startStates ++
        [joinSpace ((jsSplitWs (trimStr "a b c")).take 2)] ∧
    (addDataV2Item 2 ⟨[], []⟩ "a b").startStates =
      (⟨[], []⟩ : MarkovModel).startStates ++ [joinSpace (jsSplitWs (trimStr "a b"))] :=
  ⟨c2_addData_token_threshold.1 2 ⟨[], []⟩ "hi" (by decide),
   c2_addData_token_threshold.2.1 2 ⟨[], []⟩ "a b c" (by decide) (by decide),
   (c2_addData_token_threshold.2.2 2 ⟨[], []⟩ "a b" (by decide)).1⟩

/-- C2 counterexample: the asynchronous addData (src/bot.js lines
857-892) run on the single item "a b" with stateSize 2 succeeds and
registers the exactly-two-token item as a start state (with an empty
transition list), contradicting the claim that an item with exactly N
tokens contributes no start state and no transition registration. -/
theorem c2_counterexample :
    addDataAsync 2 [JSVal.jsStr "a b"] = .ok ⟨[("a b", [])], ["a b"]⟩ ∧
    (jsSplitWs "a b").length = 2 := ⟨rfl, rfl⟩

/-- C3: cleanText is a total function (the embedding is a Lean
function, so it cannot throw), it returns the empty string on every
non-string value (null, undefined, booleans, numbers) and on every
string whose characters are all whitespace (including the empty
string), and by its type it returns a string on every other input. -/
theorem c3_cleanText_degenerate_empty :
    ∀ (ews : List String) (v : JSVal),
    (∀ s : String, v = JSVal.jsStr s → ∀ c ∈ s.data, isJsWs c = true) →
    cleanText ews v = "" := by
  intro ews v h
  cases v with
  | jsStr s => exact cleanText_all_ws ews s (h s rfl)
  | jsNull => rfl
  | jsUndefined => rfl
  | jsBool b => rfl
  | jsNum n => rfl

/-- C3 witness: cleanText on null, on a whitespace-only string, and on
the empty string (under a non-empty excluded-word list) all yield the
empty string. -/
theorem c3_witness :
    cleanText [] JSVal.jsNull = "" ∧ cleanText [] (JSVal.jsStr "   ") = "" ∧
    cleanText ["foo"] (JSVal.jsStr "") = "" :=
  ⟨c3_cleanText_degenerate_empty [] JSVal.jsNull (fun _ h => nomatch h),
   c3_cleanText_degenerate_empty [] (JSVal.jsStr "   ")
     (fun s h => by injection h with h2; rw [← h2]; decide),
   c3_cleanText_degenerate_empty ["foo"] (JSVal.jsStr "")
     (fun s h => by injection h with h2; rw [← h2]; decide)⟩

/-- C4: within one walk of _generateOnce the visited states never
repeat: the walk starts from a fresh visited set holding only the start
state, a candidate whose prospective state is already visited is
skipped (findNew), and the final visited set is duplicate-free. -/
theorem c4_walk_visited_nodup :
    ∀ (chain : List (String × List String)) (ss : Nat) (startStates : List String)
    (pick : Nat) (oracle : Nat → List String → List String) (r : String)
    (used : List String),
    generateOnce chain ss startStates pick oracle = some (r, used) → used.Nodup := by
  intro chain ss startStates pick oracle r used h
  cases startStates with
  | nil => cases h
  | cons s0 rest =>
    exact walkAux_nodup chain ss oracle _ _ _ _ _ r used
      (List.nodup_singleton _) h

/-- C4 witness: a concrete walk whose visited set is duplicate-free. -/
theorem c4_witness : (["b c", "a b"] : List String).Nodup :=
  c4_walk_visited_nodup [("a b", ["c"]), ("b c", [])] 2 ["a b"] 0
    (fun _ l => l) "a b c" ["b c", "a b"] rfl

/-- C5 (amended): when the synchronous generate (src/bot.js lines
228-273) exhausts its attempts, its error message interpolates the
configured minChars, maxChars and maxTries (their decimal forms occur
in the message); the asynchronous generate (lines 894-910) instead
throws the fixed message "Failed to generate valid text within
constraints" (or rethrows "No training data available"), which names
none of the configured values. -/
theorem c5_error_reporting :
    (∀ (chain : List (String × List String)) (ss : Nat) (startStates : List String)
      (pickS : Nat → Nat) (pickWord : Nat → Nat → Nat)
      (minChars maxChars maxTries : Nat) (m : String),
      generateV1 chain ss startStates pickS pickWord minChars maxChars maxTries = .error m →
      m = failMsgV1 minChars maxChars maxTries ∧
        (toString minChars).data <:+: m.data ∧
        (toString maxChars).data <:+: m.data ∧
        (toString maxTries).data <:+: m.data) ∧
    (∀ (once : Nat → Option String) (minChars maxChars maxTries : Nat) (m : String),
      generateAsync once minChars maxChars maxTries = .error m →
      m = "No training data available" ∨
        m = "Failed to generate valid text within constraints") := by
  constructor
  · intro chain ss st ps pw a b c m h
    have hm : m = failMsgV1 a b c := generateV1Aux_error chain ss st ps pw a b c c 0 m h
    refine ⟨hm, ?_, ?_, ?_⟩
    · exact str_infix_of_eq m _ _ _ (by rw [hm, failMsgV1_group_min])
    · exact str_infix_of_eq m _ _ _ (by rw [hm, failMsgV1_group_max])
    · exact str_infix_of_eq m _ _ _ (by rw [hm, failMsgV1_group_tries])
  · intro once a b c m h
    exact generateAsyncAux_error once a b c 0 m h

/-- C5 witness: a concrete exhausted synchronous generate whose error
message contains the decimal forms of the configured bounds and attempt
budget, and a concrete exhausted asynchronous generate whose fixed
message is one of the two possible strings. -/
theorem c5_witness :
    ((toString (1 : Nat)).data <:+: (failMsgV1 1 2 5).data ∧
     (toString (2 : Nat)).data <:+: (failMsgV1 1 2 5).data ∧
     (toString (5 : Nat)).data <:+: (failMsgV1 1 2 5).data) ∧
    (("Failed to generate valid text within constraints" : String) =
        "No training data available" ∨
      ("Failed to generate valid text within constraints" : String) =
        "Failed to generate valid text within constraints") := by
  constructor
  · have h := c5_error_reporting.1 [] 2 [] (fun _ => 0) (fun _ _ => 0) 1 2 5
      (failMsgV1 1 2 5) rfl
    exact ⟨h.2.1, h.2.2.1, h.2.2.2⟩
  · exact c5_error_reporting.2 (fun _ => some "xx") 5 6 1 _ rfl

/-- C5 counterexample: the asynchronous generate exhausts its budget
with minChars 123, maxChars 456, maxTries 7 and throws a fixed message
in which none of those three configured numbers occurs, so the claim
that the thrown error reports minChars, maxChars and the attempt count
is false for this generate. -/
theorem c5_counterexample :
    generateAsync (fun _ => some "xx") 123 456 7 =
      .error "Failed to generate valid text within constraints" ∧
    ¬ (toString (123 : Nat)).data <:+:
        ("Failed to generate valid text within constraints" : String).data ∧
    ¬ (toString (456 : Nat)).data <:+:
        ("Failed to generate valid text within constraints" : String).data ∧
    ¬ (toString (7 : Nat)).data <:+:
        ("Failed to generate valid text within constraints" : String).data :=
  ⟨rfl, by decide, by decide, by decide⟩

/-- C6 (amended): for stateSize at least 2, each extension step of a
walk forms the prospective next state from the last stateSize - 1
tokens of the current result followed by the candidate, so every state
in the visited set of a completed walk has exactly stateSize tokens
(given start states of stateSize whitespace-free tokens, a chain whose
candidate words are whitespace-free, and a shuffle oracle that only
reorders).  For stateSize 1 the source computes slice(-0), which is the
whole result, so the property fails there (see the counterexample). -/
theorem c6_state_token_width :
    ∀ (chain : List (String × List String)) (ss : Nat) (startStates : List String)
    (pick : Nat) (oracle : Nat → List String → List String) (r : String)
    (used : List String),
    2 ≤ ss →
    (∀ st ∈ startStates, ∃ ts : List String,
      st = joinSpace ts ∧ ts.length = ss ∧ ∀ w ∈ ts, wordlike w) →
    (∀ p ∈ chain, ∀ w ∈ p.2, wordlike w) →
    (∀ k ws, ∀ w ∈ oracle k ws, w ∈ ws) →
    generateOnce chain ss startStates pick oracle = some (r, used) →
    ∀ s ∈ used, (jsSplitWs s).length = ss := by
  intro chain ss startStates pick oracle r used hss hstarts hchain horacle h
  cases startStates with
  | nil => cases h
  | cons s0 rest =>
    have hmem : (s0 :: rest).get
        ⟨pick % (s0 :: rest).length, Nat.mod_lt _ (Nat.succ_pos _)⟩ ∈ s0 :: rest :=
      List.get_mem _ _ _
    obtain ⟨ts, hts, htl, htw⟩ := hstarts _ hmem
    have h2 : walkAux chain ss oracle
        (walkFuel chain [(s0 :: rest).get
          ⟨pick % (s0 :: rest).length, Nat.mod_lt _ (Nat.succ_pos _)⟩])
        ((s0 :: rest).get ⟨pick % (s0 :: rest).length, Nat.mod_lt _ (Nat.succ_pos _)⟩)
        ((s0 :: rest).get ⟨pick % (s0 :: rest).length, Nat.mod_lt _ (Nat.succ_pos _)⟩)
        [(s0 :: rest).get ⟨pick % (s0 :: rest).length, Nat.mod_lt _ (Nat.succ_pos _)⟩]
        0 = some (r, used) := h
    rw [hts] at h2
    have htsne : ts ≠ [] := by
      intro h0
      rw [h0] at htl
      simp at htl
      omega
    refine walkAux_token_width chain ss oracle hss hchain horacle _ ts _ _ _ r used
      htw (by omega) ?_ h2
    intro s hs
    rw [List.mem_singleton.1 hs, jsSplitWs_joinSpace ts htsne htw]
    exact htl

/-- C6 witness: a concrete stateSize-2 walk in which every visited
state splits into exactly two tokens. -/
theorem c6_witness :
    (jsSplitWs "b c").length = 2 ∧ (jsSplitWs "a b").length = 2 :=
  have h := c6_state_token_width [("a b", ["c"]), ("b c", [])] 2 ["a b"] 0
    (fun _ l => l) "a b c" ["b c", "a b"] (by omega)
    (by
      intro st hst
      rw [List.mem_singleton.1 hst]
      exact ⟨["a", "b"], rfl, rfl, by decide⟩)
    (by decide)
    (fun _ _ _ hw => hw)
    rfl
  ⟨h "b c" (by simp), h "a b" (by simp)⟩

/-- C6 counterexample: with stateSize 1 the prospective next state is
computed with slice(-(1-1)) = slice(0), the whole result, so the walk
over the chain built from "a b" visits the state "a b", which has two
tokens instead of exactly one, refuting the claim at N = 1. -/
theorem c6_counterexample :
    generateOnce [("a", ["b"]), ("b", [])] 1 ["a"] 0 (fun _ l => l) =
      some ("a b", ["a b", "a"]) ∧
    (jsSplitWs "a b").length = 2 := ⟨rfl, rfl⟩

/-- C7 (code evaluation at the failing input): the URL-removal step of
cleanText removes scheme-prefixed and www.-prefixed tokens, but a
bare-domain token of the form word.tld passes through unchanged, so
cleanText on the test input "Bare domain example.com/path with content"
returns the input unchanged instead of the expected "Bare domain with
content" (src/tests expectation), while the scheme- and www.-prefixed
examples behave as claimed. -/
theorem c7_url_removal_eval :
    cleanText [] (JSVal.jsStr "Bare domain example.com/path with content") =
      "Bare domain example.com/path with content" ∧
    cleanText [] (JSVal.jsStr "Check out this link https://example.com") =
      "Check out this link" ∧
    cleanText [] (JSVal.jsStr "Visit www.example.com for more info") =
      "Visit for more info" := ⟨rfl, rfl, rfl⟩

/-- C8: the asynchronous addData fails with its empty-corpus error
exactly when, after discarding non-strings, empty and whitespace-only
strings and items with fewer than stateSize tokens, no qualifying item
remains; in particular ["hi"] with stateSize 2 throws, while malformed
items inside an otherwise non-empty corpus are silently skipped. -/
theorem c8_empty_corpus_iff :
    (∀ (ss : Nat) (texts : List JSVal),
      (addDataAsync ss texts).toOption.isSome = true ↔
        ∃ v ∈ texts, ∃ s : String, v = JSVal.jsStr s ∧ trimStr s ≠ "" ∧
          ss ≤ (jsSplitWs (trimStr s)).length) ∧
    addDataAsync 2 [JSVal.jsStr "hi"] = .error "No valid training data found" ∧
    (addDataAsync 2 [JSVal.jsNull, JSVal.jsStr "", JSVal.jsStr "   ",
      JSVal.jsStr "a b c"]).toOption.isSome = true := by
  refine ⟨?_, rfl, rfl⟩
  intro ss texts
  rw [addDataAsync_ok_iff]
  constructor
  · rintro ⟨s, hv, hne, hlen⟩
    exact ⟨JSVal.jsStr s, hv, s, rfl, hne, hlen⟩
  · rintro ⟨v, hv, s, rfl, hne, hlen⟩
    exact ⟨s, hv, hne, hlen⟩

/-- C9: every single walk of _generateOnce terminates: each continuing
iteration adds a previously unvisited state to the visited set, and an
iteration can continue only from a state whose candidate list is
non-empty, so a fuel of one more than the number of live unvisited
chain keys always suffices and generateOnce always produces a result
when start states exist. -/
theorem c9_walk_terminates :
    ∀ (chain : List (String × List String)) (ss : Nat) (startStates : List String)
    (pick : Nat) (oracle : Nat → List String → List String),
    startStates ≠ [] →
    (generateOnce chain ss startStates pick oracle).isSome = true := by
  intro chain ss startStates pick oracle h
  cases startStates with
  | nil => exact absurd rfl h
  | cons s0 rest =>
    exact walkAux_isSome chain ss oracle _ _ _ _ _ (Nat.le_refl _)

/-- C9 witness: a concrete walk over a finite model terminates with a
result. -/
theorem c9_witness :
    (generateOnce [("a b", ["c"]), ("b c", [])] 2 ["a b"] 0 (fun _ l => l)).isSome = true :=
  c9_walk_terminates [("a b", ["c"]), ("b c", [])] 2 ["a b"] 0 (fun _ l => l)
    (List.cons_ne_nil _ _)

/-- C10: in decodeHtmlEntities, the maximal span from an ampersand to
the next semicolon (with at least one interposed character, spaces and
whole words included) is treated as one entity candidate, and when the
span is not in the fixed entity table it is deleted entirely, so a bare
ampersand in running text silently deletes all following text up to the
next semicolon. -/
theorem c10_entity_span_deletion :
    ∀ (a b c : List Char), (∀ x ∈ a, x ≠ '&') → (∀ x ∈ b, x ≠ ';') → b ≠ [] →
    entityLookup ⟨'&' :: (b ++ [';'])⟩ = "" →
    decodeHtmlEntities ⟨a ++ '&' :: (b ++ ';' :: c)⟩ = ⟨a ++ decodeEntAux none c⟩ := by
  intro a b c ha hb hbne hlk
  unfold decodeHtmlEntities
  rw [show (⟨a ++ '&' :: (b ++ ';' :: c)⟩ : String).data =
    a ++ '&' :: (b ++ ';' :: c) from rfl]
  rw [decode_unknown_span a b c ha hb hbne hlk]

/-- C10 witness: the unknown span "&T rocks;" in "AT&T rocks; ok" is
deleted whole, both by decodeHtmlEntities and through cleanText. -/
theorem c10_witness :
    decodeHtmlEntities "AT&T rocks; ok" = "AT ok" ∧
    cleanText [] (JSVal.jsStr "AT&T rocks; ok") = "AT ok" := by
  constructor
  · exact c10_entity_span_deletion ("AT".data) ("T rocks".data) (" ok".data)
      (by decide) (by decide) (by decide) (by rfl)
  · rfl

end SocialBot
